import Mathlib

/-!
Verification of the HTML quiz-extraction utilities of this repository.

Two extraction scripts exist:
  variant A (strict extractor, `extractCheckpoint`-style script): emits a question
    only when at least one choice carries a correct-answer badge;
  variant B (`qs_extract_quizbank_all.js`): emits every question with choices,
    classifying by the answer-source badge, and maintains the course registry.

The DOM is embedded as a rose tree (`Node`); elements carry a tag, a class list
and an attribute list.  `querySelectorAll` over a class or tag selector becomes a
preorder collection over strict descendants, mirroring document order.
-/

/-- JS-style character-list equality test for a leading segment:
`leadEq p l` is true when `p` occurs at the start of `l`. -/
def leadEq : List Char → List Char → Bool
  | [], _ => true
  | _ :: _, [] => false
  | a :: la, b :: lb => a = b && leadEq la lb

/-- Occurrence of `pat` somewhere inside the character list (JS `String.includes`). -/
def containsChars (pat : List Char) : List Char → Bool
  | [] => leadEq pat []
  | b :: lb => leadEq pat (b :: lb) || containsChars pat lb

/-- JS `s.includes(pat)`. -/
def strIncludes (s pat : String) : Bool := containsChars pat.data s.data

/-- JS `toLowerCase` over the character list (ASCII, as the class names and
badge texts the scripts compare are ASCII). -/
def strToLower (s : String) : String := String.mk (s.data.map Char.toLower)

/-- JS `trim`: strip whitespace from both ends. -/
def strTrim (s : String) : String :=
  String.mk (((s.data.dropWhile Char.isWhitespace).reverse.dropWhile Char.isWhitespace).reverse)

/-- Value of a decimal digit run. -/
def digitsToNat (ds : List Char) : Nat := ds.foldl (fun a c => a * 10 + (c.toNat - 48)) 0

/-- Leading run of decimal digits, or failure when there is none. -/
def parseDigits (cs : List Char) : Option Nat :=
  let ds := cs.takeWhile Char.isDigit
  if ds.isEmpty then none else some (digitsToNat ds)

/-- JS `parseInt` restricted to the decimal forms the quiz pages use: leading
whitespace is skipped, an optional sign is honored, and the longest leading
digit run is taken; no digits means `NaN`, embedded as `none`. -/
def jsParseInt (s : String) : Option Int :=
  match s.data.dropWhile Char.isWhitespace with
  | [] => none
  | c :: rest =>
    if c = '-' then (parseDigits rest).map (fun n => -(n : Int))
    else if c = '+' then (parseDigits rest).map (fun n => (n : Int))
    else (parseDigits (c :: rest)).map (fun n => (n : Int))

/-- JS `parseInt(s) || 0`: `NaN` (and `0` itself) collapse to `0`. -/
def jsParseIntOr0 (s : String) : Int := (jsParseInt s).getD 0

/-- Word character of the JS `\w` class. -/
def isWordChar (c : Char) : Bool := c.isAlphanum || c = '_'

/-- JS `replace(/\b\w/g, c => c.toUpperCase())`: a word character not preceded by
a word character is uppercased; `prev` records whether the previous character was
a word character. -/
def titleChars (prev : Bool) : List Char → List Char
  | [] => []
  | c :: cs => (if isWordChar c && !prev then c.toUpper else c) :: titleChars (isWordChar c) cs

/-- Capitalize the first letter of every word, as both scripts do for display names. -/
def jsTitleCase (s : String) : String := String.mk (titleChars false s.data)

/-- A DOM node: either a text node or an element with tag, class list,
attribute list and children. -/
inductive Node where
  | text (s : String) : Node
  | elem (tag : String) (classes : List String) (attrs : List (String × String)) (children : List Node) : Node

mutual

/-- `textContent`: concatenation of all text-node data, in document order. -/
def nodeText : Node → String
  | .text s => s
  | .elem _ _ _ cs => forestText cs

def forestText : List Node → String
  | [] => ""
  | n :: ns => nodeText n ++ forestText ns

end

/-- `classList.contains c` (false on text nodes). -/
def hasClass (c : String) : Node → Bool
  | .text _ => false
  | .elem _ classes _ _ => classes.contains c

/-- Tag-name test (false on text nodes). -/
def hasTag (t : String) : Node → Bool
  | .text _ => false
  | .elem tag _ _ _ => tag = t

/-- `getAttribute`: first binding of the attribute name, absent meaning JS `null`. -/
def getAttr (name : String) : Node → Option String
  | .text _ => none
  | .elem _ _ attrs _ => (attrs.find? (fun pr => pr.1 = name)).map Prod.snd

mutual

/-- Matches of `p` within a subtree (the node itself included), in preorder. -/
def matchesIn (p : Node → Bool) : Node → List Node
  | .text _ => []
  | .elem t c a cs =>
    (if p (Node.elem t c a cs) then [Node.elem t c a cs] else []) ++ matchesInForest p cs

def matchesInForest (p : Node → Bool) : List Node → List Node
  | [] => []
  | n :: ns => matchesIn p n ++ matchesInForest p ns

end

/-- `root.querySelectorAll` for a simple selector `p`: the matching strict
descendants of `root`, in document order. -/
def qsa (p : Node → Bool) : Node → List Node
  | .text _ => []
  | .elem _ _ _ cs => matchesInForest p cs

/-- `root.querySelector`: first match in document order, or JS `null`. -/
def qsFirst (p : Node → Bool) (n : Node) : Option Node := (qsa p n).head?

mutual

/-- Matching strict descendants paired with their parent element, in preorder. -/
def wpIn (p : Node → Bool) : Node → List (Node × Node)
  | .text _ => []
  | .elem t c a cs => wpForest p (Node.elem t c a cs) cs

def wpForest (p : Node → Bool) (parent : Node) : List Node → List (Node × Node)
  | [] => []
  | n :: ns => (if p n then [(n, parent)] else []) ++ wpIn p n ++ wpForest p parent ns

end

/-- `root.querySelectorAll(sel)` where each match is paired with its
`parentElement` (always defined, matches being strict descendants). -/
def qsaWithParent (p : Node → Bool) (root : Node) : List (Node × Node) := wpIn p root

mutual

/-- Descendant-combinator matches: a node matches when `flag` records that some
ancestor matched `anc` and the node itself matches `tgt`. -/
def underIn (anc tgt : Node → Bool) (flag : Bool) : Node → List Node
  | .text _ => []
  | .elem t c a cs =>
    (if flag && tgt (Node.elem t c a cs) then [Node.elem t c a cs] else []) ++
      underForest anc tgt (flag || anc (Node.elem t c a cs)) cs

def underForest (anc tgt : Node → Bool) (flag : Bool) : List Node → List Node
  | [] => []
  | n :: ns => underIn anc tgt flag n ++ underForest anc tgt flag ns

end

/-- `root.querySelectorAll("A B")` for an ancestor selector `anc` and a target
selector `tgt` (the root itself may serve as the ancestor). -/
def qsaUnder (anc tgt : Node → Bool) : Node → List Node
  | .text _ => []
  | .elem t c a cs => underForest anc tgt (anc (Node.elem t c a cs)) cs

mutual

/-- Remove every node matching `p` (with its whole subtree), as the scripts do
with `querySelectorAll(...).forEach(b => b.remove())` on a clone. -/
def removeAllIn (p : Node → Bool) : Node → Node
  | .text s => .text s
  | .elem t c a cs => .elem t c a (removeAllForest p cs)

def removeAllForest (p : Node → Bool) : List Node → List Node
  | [] => []
  | n :: ns => (if p n then [] else [removeAllIn p n]) ++ removeAllForest p ns

end

mutual

/-- Remove the first matching strict descendant in preorder, as the scripts do
with `clone.querySelector(sel)` followed by `.remove()`.  The flag reports
whether a removal happened. -/
def removeFirstIn (p : Node → Bool) : Node → Node × Bool
  | .text s => (.text s, false)
  | .elem t c a cs =>
    let r := removeFirstForest p cs
    (.elem t c a r.1, r.2)

def removeFirstForest (p : Node → Bool) : List Node → List Node × Bool
  | [] => ([], false)
  | n :: ns =>
    if p n then (ns, true)
    else
      let r := removeFirstIn p n
      if r.2 then (r.1 :: ns, true)
      else
        let rs := removeFirstForest p ns
        (n :: rs.1, rs.2)

end

/-- Aggregate counters parsed from the stat cards (`stats` object of both scripts). -/
structure Stats where
  total : Int
  correct : Int
  wrong : Int
  new : Int
deriving DecidableEq, Repr

/-- The four stat categories the label text is matched against. -/
inductive StatCategory where
  | total | correct | wrong | new
deriving DecidableEq, Repr

/-- Classification of one stat card, mirroring the `if / else if` chain of both
scripts: the card needs both a `.stat-label` and a `.stat-value` descendant, and
the lowercased label text is tested for the substrings `total`, `correct`,
`wrong`, `new` in that order. -/
def classifyCard (card : Node) : Option StatCategory :=
  match qsFirst (hasClass "stat-label") card, qsFirst (hasClass "stat-value") card with
  | some label, some _ =>
    let labelText := strToLower (nodeText label)
    if strIncludes labelText "total" then some .total
    else if strIncludes labelText "correct" then some .correct
    else if strIncludes labelText "wrong" then some .wrong
    else if strIncludes labelText "new" then some .new
    else none
  | _, _ => none

/-- Numeric value of a stat card: `parseInt(value.textContent) || 0`. -/
def cardValue (card : Node) : Int :=
  match qsFirst (hasClass "stat-value") card with
  | some value => jsParseIntOr0 (nodeText value)
  | none => 0

/-- One step of the stat-card scan: assignment (not accumulation) into the
matching counter. -/
def statStep (st : Stats) (card : Node) : Stats :=
  match qsFirst (hasClass "stat-label") card, qsFirst (hasClass "stat-value") card with
  | some label, some value =>
    let labelText := strToLower (nodeText label)
    let numValue := jsParseIntOr0 (nodeText value)
    if strIncludes labelText "total" then { st with total := numValue }
    else if strIncludes labelText "correct" then { st with correct := numValue }
    else if strIncludes labelText "wrong" then { st with wrong := numValue }
    else if strIncludes labelText "new" then { st with new := numValue }
    else st
  | _, _ => st

/-- The stat cards of a document, in document order. -/
def statCards (doc : Node) : List Node := qsa (hasClass "stat-card") doc

/-- `stats` after the `statCards.forEach` walk, starting from all-zero counters. -/
def computeStats (doc : Node) : Stats :=
  (statCards doc).foldl statStep { total := 0, correct := 0, wrong := 0, new := 0 }

/-- Projection of one counter out of `Stats`. -/
def statProj : StatCategory → Stats → Int
  | .total, st => st.total
  | .correct, st => st.correct
  | .wrong, st => st.wrong
  | .new, st => st.new

/-- The value of an emitted record's `answer` field: a single string or an array
of strings, as in the JSON output. -/
inductive AnswerVal where
  | str (s : String) : AnswerVal
  | arr (l : List String) : AnswerVal
deriving DecidableEq, Repr

/-- One emitted question object.  `img` is `none` when the field is absent from
the JSON object; `answer` is `none` when the field is absent (both scripts in
fact always assign it before pushing, which claim C10 is about). -/
structure QuestionRecord where
  question : String
  img : Option String
  choices : List String
  answer : Option AnswerVal
deriving DecidableEq, Repr

/-- The string elements of an `answer` value. -/
def answerTexts : AnswerVal → List String
  | .str s => [s]
  | .arr l => l

/-- The `.question_text` container of a display question (`querySelector`). -/
def questionTextEl (q : Node) : Option Node := qsFirst (hasClass "question_text") q

/-- Variant B's `isNewQuestion`: the answer-source badge inside the question
text exists and carries the `new-source` class. -/
def isNewQuestion (q : Node) : Bool :=
  match questionTextEl q with
  | none => false
  | some qt =>
    match qsFirst (hasClass "answer-source-badge") qt with
    | none => false
    | some badge => hasClass "new-source" badge

/-- Variant B's `isWrongAnswer`: the answer-source badge exists and its
lowercased text contains `wrong`. -/
def isWrongAnswer (q : Node) : Bool :=
  match questionTextEl q with
  | none => false
  | some qt =>
    match qsFirst (hasClass "answer-source-badge") qt with
    | none => false
    | some badge => strIncludes (strToLower (nodeText badge)) "wrong"

/-- Question text: clone the `.question_text` subtree, remove the first
`.answer-source-badge` descendant if any, and trim the remaining text. -/
def questionTextOf (qt : Node) : String :=
  strTrim (nodeText (removeFirstIn (hasClass "answer-source-badge") qt).1)

/-- The `img` field: present exactly when an `img` descendant exists and its
`src` attribute is a non-empty string (JS truthiness of `getAttribute('src')`). -/
def imgField (qt : Node) : Option String :=
  match qsFirst (hasTag "img") qt with
  | none => none
  | some img =>
    match getAttr "src" img with
    | none => none
    | some s => if s = "" then none else some s

/-- The `.answer_label` elements of a question, each with its parent element. -/
def answerLabelsWP (q : Node) : List (Node × Node) := qsaWithParent (hasClass "answer_label") q

/-- Choice text of one answer label: clone, remove all correct/wrong answer
badges, trim the remaining text. -/
def choiceTextOf (lab : Node) : String :=
  strTrim (nodeText (removeAllIn
      (fun n => hasClass "correct-answer-badge" n || hasClass "wrong-answer-badge" n) lab))

/-- Whether `answerLabel.parentElement.querySelector('.correct-answer-badge')`
finds a badge. -/
def hasCorrectBadge (parent : Node) : Bool :=
  (qsFirst (hasClass "correct-answer-badge") parent).isSome

/-- The `answerLabels.forEach` walk of both scripts, building `choices` and
`correctAnswers` in document order.  `skip` is variant B's
`isNewQuestion || isWrongAnswer` guard around the correctness check (always
false in variant A). -/
def gatherChoices (skip : Bool) : List (Node × Node) → List String × List String
  | [] => ([], [])
  | lp :: rest =>
    if choiceTextOf lp.1 = "" then gatherChoices skip rest
    else
      (choiceTextOf lp.1 :: (gatherChoices skip rest).1,
       if !skip && hasCorrectBadge lp.2 then choiceTextOf lp.1 :: (gatherChoices skip rest).2
       else (gatherChoices skip rest).2)

/-- Trimmed texts of the `.pull-left label` matches, in document order. -/
def rawLabelTexts (q : Node) : List String :=
  (qsaUnder (hasClass "pull-left") (hasTag "label") q).map (fun n => strTrim (nodeText n))

/-- Variant B fallback, label pass: `if (text) choices.push(text)`. -/
def fallbackLabels (q : Node) : List String := (rawLabelTexts q).filter (fun t => t ≠ "")

/-- Trimmed texts of the `select option` matches, in document order. -/
def optionTexts (q : Node) : List String :=
  (qsaUnder (hasTag "select") (hasTag "option") q).map (fun n => strTrim (nodeText n))

/-- Variant B fallback, option pass: push each option text that is non-empty,
is not the placeholder `[ Choose ]`, and is not already in `choices`. -/
def addOpts (acc : List String) : List String → List String
  | [] => acc
  | t :: rest =>
    if t ≠ "" ∧ t ≠ "[ Choose ]" ∧ t ∉ acc then addOpts (acc ++ [t]) rest
    else addOpts acc rest

/-- Variant B's matching-question fallback `choices`: label texts first, then
de-duplicated option texts. -/
def fallbackChoices (q : Node) : List String := addOpts (fallbackLabels q) (optionTexts q)

/-- Variant B's `choices` variable at the emission point: the answer-label pass
when answer labels exist, the matching-question fallback otherwise. -/
def bChoices (q : Node) : List String :=
  if (answerLabelsWP q).isEmpty then fallbackChoices q
  else (gatherChoices (isNewQuestion q || isWrongAnswer q) (answerLabelsWP q)).1

/-- Variant B's `correctAnswers` variable at the emission point: empty in the
fallback branch, which never marks a choice correct. -/
def bCorrect (q : Node) : List String :=
  if (answerLabelsWP q).isEmpty then []
  else (gatherChoices (isNewQuestion q || isWrongAnswer q) (answerLabelsWP q)).2

/-- Variant B's question body (`qs_extract_quizbank_all.js`, inside the
`questionElements.forEach` try block): `none` when the question is skipped
(no `.question_text`, or empty `choices`); otherwise the record together with
the flag distinguishing the `questionsWithAnswer` branch from the
`questionsWithoutAnswer` branch. -/
def buildQuestionB (q : Node) : Option (QuestionRecord × Bool) :=
  match questionTextEl q with
  | none => none
  | some qt =>
    if (bChoices q).isEmpty then none
    else if isNewQuestion q || isWrongAnswer q || (bCorrect q).isEmpty then
      some ({ question := questionTextOf qt, img := imgField qt, choices := bChoices q,
              answer := some (.str "") }, false)
    else if (bCorrect q).length > 1 then
      some ({ question := questionTextOf qt, img := imgField qt, choices := bChoices q,
              answer := some (.arr (bCorrect q)) }, true)
    else
      some ({ question := questionTextOf qt, img := imgField qt, choices := bChoices q,
              answer := some (.str ((bCorrect q).headD "")) }, true)

/-- Variant A's `choices` variable at the emission point. -/
def aChoices (q : Node) : List String := (gatherChoices false (answerLabelsWP q)).1

/-- Variant A's `correctAnswers` variable at the emission point. -/
def aCorrect (q : Node) : List String := (gatherChoices false (answerLabelsWP q)).2

/-- Variant A's question body (the strict extractor, inside its
`questionElements.forEach` try block): a record is built only when both
`correctAnswers` and `choices` are non-empty. -/
def buildQuestionA (q : Node) : Option QuestionRecord :=
  match questionTextEl q with
  | none => none
  | some qt =>
    if (aCorrect q).isEmpty || (aChoices q).isEmpty then none
    else if (aCorrect q).length > 1 then
      some { question := questionTextOf qt, img := imgField qt, choices := aChoices q,
             answer := some (.arr (aCorrect q)) }
    else
      some { question := questionTextOf qt, img := imgField qt, choices := aChoices q,
             answer := some (.str ((aCorrect q).headD "")) }

/-- Result of variant B's walk: the emitted records plus the two counters,
named as in the script. -/
structure ExtractionB where
  records : List QuestionRecord
  questionsWithAnswer : Nat
  questionsWithoutAnswer : Nat
deriving DecidableEq, Repr

/-- Variant B's `questionElements.forEach` with its `try/catch`: the body `p`
may raise (modelled by `Except.error`), in which case the question contributes
nothing and the walk continues; `Except.ok none` is a skipped question;
`Except.ok (some (r, answered))` pushes the record and bumps the counter the
script bumps in the same branch. -/
def walkB (p : Node → Except String (Option (QuestionRecord × Bool))) :
    List Node → ExtractionB
  | [] => { records := [], questionsWithAnswer := 0, questionsWithoutAnswer := 0 }
  | q :: qs =>
    match p q with
    | .error _ => walkB p qs
    | .ok none => walkB p qs
    | .ok (some rb) =>
      if rb.2 then
        { records := rb.1 :: (walkB p qs).records,
          questionsWithAnswer := (walkB p qs).questionsWithAnswer + 1,
          questionsWithoutAnswer := (walkB p qs).questionsWithoutAnswer }
      else
        { records := rb.1 :: (walkB p qs).records,
          questionsWithAnswer := (walkB p qs).questionsWithAnswer,
          questionsWithoutAnswer := (walkB p qs).questionsWithoutAnswer + 1 }

/-- Variant A's `questionElements.forEach` with its `try/catch`. -/
def walkA (p : Node → Except String (Option QuestionRecord)) :
    List Node → List QuestionRecord
  | [] => []
  | q :: qs =>
    match p q with
    | .error _ => walkA p qs
    | .ok none => walkA p qs
    | .ok (some r) => r :: walkA p qs

/-- The display questions of a document, in document order. -/
def displayQuestions (doc : Node) : List Node := qsa (hasClass "display_question") doc

/-- Variant B's full extraction over a document. -/
def variantB_extract (doc : Node) : ExtractionB :=
  walkB (fun q => .ok (buildQuestionB q)) (displayQuestions doc)

/-- Variant A's full extraction over a document. -/
def variantA_extract (doc : Node) : List QuestionRecord :=
  walkA (fun q => .ok (buildQuestionA q)) (displayQuestions doc)

/-- Number of records carrying a non-blank answer. -/
def countAnswered (rs : List QuestionRecord) : Nat :=
  (rs.filter (fun r => r.answer ≠ some (.str ""))).length

/-- Number of records carrying a blank answer. -/
def countBlank (rs : List QuestionRecord) : Nat :=
  (rs.filter (fun r => r.answer = some (.str ""))).length

/-- The numeric quantities variant A reports at the end of a run, in print
order: the four parsed stat counters and `extractedQuestions.length` (its
summary block prints nothing else numeric — in particular no answered/blank
split). -/
def variantA_reportNums (doc : Node) : List Int :=
  [(computeStats doc).total, (computeStats doc).correct, (computeStats doc).wrong,
   (computeStats doc).new, ((variantA_extract doc).length : Int)]

/-- One module entry of the course registry (`courses.json`). -/
structure CourseModule where
  id : Nat
  name : String
  checkpoints : List String
deriving DecidableEq, Repr

/-- One course entry of the course registry. -/
structure Course where
  id : String
  name : String
  modules : List CourseModule
deriving DecidableEq, Repr

/-- The on-disk state the registry functions touch: the set of existing
directories (as a list of paths) and the content of `assets/courses.json`
(`none` when the file is absent). -/
structure FsState where
  dirs : List String
  coursesFile : Option (List Course)
deriving DecidableEq, Repr

/-- `fs.mkdirSync(d, { recursive: true })` given the ancestor chain of `d`:
adds each path not already present. -/
def addDirs (dirs : List String) (paths : List String) : List String :=
  paths.foldl (fun acc d => if d ∈ acc then acc else acc ++ [d]) dirs

/-- The `if (!fs.existsSync(c)) fs.mkdirSync(c, { recursive: true })` pattern of
`ensureCourseStructure`, for a target directory `c` under `a/b`. -/
def ensureDir3 (a b c : String) (dirs : List String) : List String :=
  if c ∈ dirs then dirs else addDirs dirs [a, b, c]

/-- `ensureCourseStructure` of `qs_extract_quizbank_all.js`: create the course's
`html` and `json` directories when absent and append a course entry to
`courses.json` when the id is not present; returns the new state and the
`(courseDir, htmlDir, jsonDir)` paths. -/
def ensureCourseStructure (courseFolder : String) (s : FsState) :
    FsState × String × String × String :=
  let courseDir := "assets/" ++ courseFolder
  let htmlDir := courseDir ++ "/html"
  let jsonDir := courseDir ++ "/json"
  let dirs1 := ensureDir3 "assets" courseDir htmlDir s.dirs
  let dirs2 := ensureDir3 "assets" courseDir jsonDir dirs1
  let courses := s.coursesFile.getD []
  let courseFound := courses.any (fun c => c.id = courseFolder)
  if courseFound then
    ({ dirs := dirs2, coursesFile := s.coursesFile }, courseDir, htmlDir, jsonDir)
  else
    let courseName := jsTitleCase ((courseFolder.replace "-" " ").replace "_" " ")
    ({ dirs := dirs2,
       coursesFile := some (courses ++ [{ id := courseFolder, name := courseName, modules := [] }]) },
     courseDir, htmlDir, jsonDir)

/-- Inner update of one course by `updateCourseModule`: when the checkpoint is
not yet in any module, append a module whose id is one greater than the maximum
existing id (`Math.max(0, ...ids) + 1`). -/
def ensureModule (checkpointName : String) (c : Course) : Course :=
  if c.modules.any (fun m => m.checkpoints.contains checkpointName) then c
  else
    let nextId := (c.modules.map (fun m => m.id)).foldl max 0 + 1
    let moduleName := jsTitleCase ((checkpointName.replace "_" " ").replace "-" " ")
    let newModule : CourseModule := { id := nextId, name := moduleName, checkpoints := [checkpointName] }
    { c with modules := c.modules ++ [newModule] }

/-- The `for ... break` loop of `updateCourseModule`: only the first course with
the matching id is updated. -/
def updateFirstCourse (courseFolder checkpointName : String) : List Course → List Course
  | [] => []
  | c :: rest =>
    if c.id = courseFolder then ensureModule checkpointName c :: rest
    else c :: updateFirstCourse courseFolder checkpointName rest

/-- `updateCourseModule` of `qs_extract_quizbank_all.js`: a no-op when
`courses.json` is absent; otherwise the first matching course is updated and the
file rewritten. -/
def updateCourseModule (courseFolder checkpointName : String) (s : FsState) : FsState :=
  match s.coursesFile with
  | none => s
  | some courses =>
    { s with coursesFile := some (updateFirstCourse courseFolder checkpointName courses) }

/-! ### Lemmas about the answer-label pass -/

theorem gatherChoices_fst_skip (skip skip' : Bool) (L : List (Node × Node)) :
    (gatherChoices skip L).1 = (gatherChoices skip' L).1 := by
  induction L with
  | nil => rfl
  | cons lp rest ih =>
    simp only [gatherChoices]
    split
    · exact ih
    · simp [ih]

theorem gatherChoices_snd_sublist (skip : Bool) (L : List (Node × Node)) :
    (gatherChoices skip L).2.Sublist (gatherChoices skip L).1 := by
  induction L with
  | nil => simp [gatherChoices]
  | cons lp rest ih =>
    simp only [gatherChoices]
    split
    · exact ih
    · dsimp only
      split
      · exact ih.cons₂ _
      · exact ih.cons _

theorem gatherChoices_fst_ne_blank (skip : Bool) (L : List (Node × Node)) :
    ∀ t ∈ (gatherChoices skip L).1, t ≠ "" := by
  induction L with
  | nil => simp [gatherChoices]
  | cons lp rest ih =>
    simp only [gatherChoices]
    split
    · exact ih
    · intro t ht
      rcases List.mem_cons.mp ht with rfl | ht
      · assumption
      · exact ih t ht

theorem gatherChoices_snd_ne_blank (skip : Bool) (L : List (Node × Node)) :
    ∀ t ∈ (gatherChoices skip L).2, t ≠ "" := fun t ht =>
  gatherChoices_fst_ne_blank skip L t ((gatherChoices_snd_sublist skip L).subset ht)

theorem gatherChoices_skip_snd (L : List (Node × Node)) :
    (gatherChoices true L).2 = [] := by
  induction L with
  | nil => rfl
  | cons lp rest ih =>
    simp only [gatherChoices]
    split
    · exact ih
    · simpa using ih

theorem gatherChoices_snd_ne_nil_iff (L : List (Node × Node)) :
    (gatherChoices false L).2 ≠ [] ↔
      ∃ lp ∈ L, choiceTextOf lp.1 ≠ "" ∧ hasCorrectBadge lp.2 = true := by
  induction L with
  | nil => simp [gatherChoices]
  | cons lp rest ih =>
    simp only [gatherChoices]
    by_cases ht : choiceTextOf lp.1 = ""
    · rw [if_pos ht, ih]
      constructor
      · rintro ⟨lp', h1, h2⟩; exact ⟨lp', List.mem_cons_of_mem _ h1, h2⟩
      · rintro ⟨lp', h1, h2, h3⟩
        rcases List.mem_cons.mp h1 with rfl | h1
        · exact absurd ht h2
        · exact ⟨lp', h1, h2, h3⟩
    · rw [if_neg ht]
      dsimp only
      simp only [Bool.not_false, Bool.true_and]
      by_cases hb : hasCorrectBadge lp.2 = true
      · rw [if_pos hb]
        constructor
        · intro _; exact ⟨lp, List.mem_cons_self _ _, ht, hb⟩
        · intro _; exact List.cons_ne_nil _ _
      · rw [if_neg hb, ih]
        constructor
        · rintro ⟨lp', h1, h2⟩; exact ⟨lp', List.mem_cons_of_mem _ h1, h2⟩
        · rintro ⟨lp', h1, h2, h3⟩
          rcases List.mem_cons.mp h1 with rfl | h1
          · exact absurd h3 hb
          · exact ⟨lp', h1, h2, h3⟩

/-! ### Lemmas about the matching-question fallback -/

theorem addOpts_spec (ts : List String) : ∀ acc : List String, ∃ os,
    addOpts acc ts = acc ++ os ∧ os.Sublist ts ∧ os.Nodup ∧
    ∀ t, t ∈ os ↔ (t ∈ ts ∧ t ≠ "" ∧ t ≠ "[ Choose ]" ∧ t ∉ acc) := by
  induction ts with
  | nil =>
    intro acc
    exact ⟨[], by simp [addOpts], List.Sublist.refl _, List.nodup_nil, by simp⟩
  | cons t rest ih =>
    intro acc
    by_cases hc : t ≠ "" ∧ t ≠ "[ Choose ]" ∧ t ∉ acc
    · obtain ⟨os, h1, h2, h3, h4⟩ := ih (acc ++ [t])
      refine ⟨t :: os, ?_, h2.cons₂ t, ?_, ?_⟩
      · rw [addOpts, if_pos hc, h1]
        simp
      · refine List.nodup_cons.mpr ⟨fun hmem => ?_, h3⟩
        have := ((h4 t).mp hmem).2.2.2
        simp at this
      · intro u
        constructor
        · intro hu
          rcases List.mem_cons.mp hu with rfl | hu
          · exact ⟨List.mem_cons_self _ _, hc.1, hc.2.1, hc.2.2⟩
          · obtain ⟨m1, m2, m3, m4⟩ := (h4 u).mp hu
            refine ⟨List.mem_cons_of_mem _ m1, m2, m3, fun hacc => m4 ?_⟩
            simp [hacc]
        · rintro ⟨m1, m2, m3, m4⟩
          by_cases hut : u = t
          · exact hut ▸ List.mem_cons_self _ _
          · refine List.mem_cons_of_mem _ ((h4 u).mpr ⟨?_, m2, m3, ?_⟩)
            · rcases List.mem_cons.mp m1 with rfl | m1
              · exact absurd rfl hut
              · exact m1
            · simp [hut, m4]
    · obtain ⟨os, h1, h2, h3, h4⟩ := ih acc
      refine ⟨os, ?_, h2.cons t, h3, ?_⟩
      · rw [addOpts, if_neg hc, h1]
      · intro u
        rw [h4 u]
        constructor
        · rintro ⟨m1, m2, m3, m4⟩; exact ⟨List.mem_cons_of_mem _ m1, m2, m3, m4⟩
        · rintro ⟨m1, m2, m3, m4⟩
          rcases List.mem_cons.mp m1 with rfl | m1
          · exact absurd ⟨m2, m3, m4⟩ hc
          · exact ⟨m1, m2, m3, m4⟩

theorem fallbackChoices_spec (q : Node) : ∃ os,
    fallbackChoices q = fallbackLabels q ++ os ∧ os.Sublist (optionTexts q) ∧ os.Nodup ∧
    ∀ t, t ∈ os ↔
      (t ∈ optionTexts q ∧ t ≠ "" ∧ t ≠ "[ Choose ]" ∧ t ∉ fallbackLabels q) := by
  simpa [fallbackChoices] using addOpts_spec (optionTexts q) (fallbackLabels q)

theorem fallbackLabels_eq_filter (q : Node) :
    fallbackLabels q = (rawLabelTexts q).filter (fun t => t ≠ "") := rfl

/-! ### Lemmas about the per-question builders -/

theorem bCorrect_sublist (q : Node) : (bCorrect q).Sublist (bChoices q) := by
  unfold bCorrect bChoices
  split
  · exact List.nil_sublist _
  · exact gatherChoices_snd_sublist _ _

theorem bCorrect_ne_blank (q : Node) : ∀ t ∈ bCorrect q, t ≠ "" := by
  unfold bCorrect
  split
  · simp
  · exact gatherChoices_snd_ne_blank _ _

theorem aCorrect_sublist (q : Node) : (aCorrect q).Sublist (aChoices q) :=
  gatherChoices_snd_sublist _ _

theorem aCorrect_ne_blank (q : Node) : ∀ t ∈ aCorrect q, t ≠ "" :=
  gatherChoices_snd_ne_blank _ _

theorem headD_mem {l : List String} (h : l ≠ []) : l.headD "" ∈ l := by
  cases l with
  | nil => exact absurd rfl h
  | cons a l => exact List.mem_cons_self _ _

/-- Non-emptiness of an `answer` value (a non-empty string, or a non-empty array). -/
def answerNonEmpty : AnswerVal → Bool
  | .str s => s ≠ ""
  | .arr l => !l.isEmpty

theorem buildB_some_elim {q : Node} {r : QuestionRecord} {b : Bool}
    (h : buildQuestionB q = some (r, b)) :
    ∃ qt, questionTextEl q = some qt ∧ r.choices = bChoices q ∧ bChoices q ≠ [] ∧
      r.question = questionTextOf qt ∧ r.img = imgField qt ∧
      (((isNewQuestion q || isWrongAnswer q) = true ∨ bCorrect q = []) →
        r.answer = some (.str "") ∧ b = false) ∧
      (¬((isNewQuestion q || isWrongAnswer q) = true ∨ bCorrect q = []) →
        b = true ∧ ((bCorrect q).length > 1 ∧ r.answer = some (.arr (bCorrect q)) ∨
          (∃ c, bCorrect q = [c] ∧ r.answer = some (.str c)))) := by
  cases hqt : questionTextEl q with
  | none => rw [buildQuestionB, hqt] at h; exact absurd h (by simp)
  | some qt =>
    rw [buildQuestionB, hqt] at h
    simp only at h
    by_cases h1 : (bChoices q).isEmpty = true
    · rw [if_pos h1] at h; exact absurd h (by simp)
    · rw [if_neg h1] at h
      have hch : bChoices q ≠ [] := fun hnil => h1 (by simp [hnil])
      by_cases h2 : ((isNewQuestion q || isWrongAnswer q) = true ∨ bCorrect q = [])
      · rw [if_pos ?_] at h
        · simp only [Option.some.injEq, Prod.mk.injEq] at h
          obtain ⟨hr, hb⟩ := h
          subst hr
          exact ⟨qt, rfl, rfl, hch, rfl, rfl, fun _ => ⟨rfl, hb.symm⟩, fun hc => absurd h2 hc⟩
        · rcases h2 with h2 | h2
          · simp [h2]
          · simp [h2]
      · rw [if_neg ?_] at h
        · by_cases h3 : (bCorrect q).length > 1
          · rw [if_pos h3] at h
            simp only [Option.some.injEq, Prod.mk.injEq] at h
            obtain ⟨hr, hb⟩ := h
            subst hr
            exact ⟨qt, rfl, rfl, hch, rfl, rfl, fun hc => absurd hc h2,
              fun _ => ⟨hb.symm, Or.inl ⟨h3, rfl⟩⟩⟩
          · rw [if_neg h3] at h
            simp only [Option.some.injEq, Prod.mk.injEq] at h
            obtain ⟨hr, hb⟩ := h
            subst hr
            have hne : bCorrect q ≠ [] := fun hnil => h2 (Or.inr hnil)
            have hlen : (bCorrect q).length = 1 := by
              rcases Nat.lt_or_ge (bCorrect q).length 2 with hlt | hge
              · interval_cases hlen : (bCorrect q).length
                · exact absurd (List.length_eq_zero.mp hlen) hne
                · rfl
              · exact absurd hge (by omega)
            obtain ⟨c, hc⟩ := List.length_eq_one.mp hlen
            refine ⟨qt, rfl, rfl, hch, rfl, rfl, fun hc2 => absurd hc2 h2,
              fun _ => ⟨hb.symm, Or.inr ⟨c, hc, ?_⟩⟩⟩
            simp [hc]
        · intro hc
          apply h2
          rcases Bool.or_eq_true _ _ |>.mp hc with hc | hc
          · exact Or.inl hc
          · exact Or.inr (List.isEmpty_iff.mp hc)
      -- the rewritten condition must match the original boolean test

theorem buildA_some_elim {q : Node} {r : QuestionRecord}
    (h : buildQuestionA q = some r) :
    ∃ qt, questionTextEl q = some qt ∧ r.choices = aChoices q ∧ aCorrect q ≠ [] ∧
      r.question = questionTextOf qt ∧ r.img = imgField qt ∧
      ((aCorrect q).length > 1 ∧ r.answer = some (.arr (aCorrect q)) ∨
        (∃ c, aCorrect q = [c] ∧ r.answer = some (.str c))) := by
  cases hqt : questionTextEl q with
  | none => rw [buildQuestionA, hqt] at h; exact absurd h (by simp)
  | some qt =>
    rw [buildQuestionA, hqt] at h
    simp only at h
    by_cases h1 : ((aCorrect q).isEmpty || (aChoices q).isEmpty) = true
    · rw [if_pos h1] at h; exact absurd h (by simp)
    · rw [if_neg h1] at h
      have hne : aCorrect q ≠ [] := by
        intro hnil
        exact h1 (by simp [hnil])
      by_cases h3 : (aCorrect q).length > 1
      · rw [if_pos h3] at h
        simp only [Option.some.injEq] at h
        subst h
        exact ⟨qt, rfl, rfl, hne, rfl, rfl, Or.inl ⟨h3, rfl⟩⟩
      · rw [if_neg h3] at h
        simp only [Option.some.injEq] at h
        subst h
        have hlen : (aCorrect q).length = 1 := by
          have hpos : 0 < (aCorrect q).length := List.length_pos.mpr hne
          omega
        obtain ⟨c, hc⟩ := List.length_eq_one.mp hlen
        refine ⟨qt, rfl, rfl, hne, rfl, rfl, Or.inr ⟨c, hc, ?_⟩⟩
        simp [hc]

theorem buildA_isSome_iff {q : Node} {qt : Node} (hqt : questionTextEl q = some qt) :
    (buildQuestionA q).isSome ↔ aCorrect q ≠ [] := by
  constructor
  · intro h
    obtain ⟨r, hr⟩ := Option.isSome_iff_exists.mp h
    obtain ⟨_, _, _, hne, _⟩ := buildA_some_elim hr
    exact hne
  · intro hne
    have hch : aChoices q ≠ [] := by
      intro hnil
      have hsub := aCorrect_sublist q
      rw [hnil] at hsub
      exact hne (List.sublist_nil.mp hsub)
    rw [buildQuestionA, hqt]
    simp only
    rw [if_neg (by simp [List.isEmpty_iff, hne, hch])]
    split <;> simp

/-! ### Lemmas about the question walks -/

theorem walkB_records_mem {p : Node → Except String (Option (QuestionRecord × Bool))}
    {qs : List Node} {r : QuestionRecord} (h : r ∈ (walkB p qs).records) :
    ∃ q ∈ qs, ∃ b, p q = .ok (some (r, b)) := by
  induction qs with
  | nil => simp [walkB] at h
  | cons q rest ih =>
    rw [walkB] at h
    cases hp : p q with
    | error e =>
      rw [hp] at h
      obtain ⟨q', hq', b, hb⟩ := ih h
      exact ⟨q', List.mem_cons_of_mem _ hq', b, hb⟩
    | ok o =>
      cases o with
      | none =>
        rw [hp] at h
        obtain ⟨q', hq', b, hb⟩ := ih h
        exact ⟨q', List.mem_cons_of_mem _ hq', b, hb⟩
      | some rb =>
        rw [hp] at h
        simp only at h
        have hmem : r ∈ rb.1 :: (walkB p rest).records := by
          by_cases hb2 : rb.2 = true
          · rw [if_pos hb2] at h; exact h
          · rw [if_neg hb2] at h; exact h
        rcases List.mem_cons.mp hmem with rfl | hmemr
        · exact ⟨q, List.mem_cons_self _ _, rb.2, by rw [hp]⟩
        · obtain ⟨q', hq', b, hb⟩ := ih hmemr
          exact ⟨q', List.mem_cons_of_mem _ hq', b, hb⟩

theorem walkA_records_mem {p : Node → Except String (Option QuestionRecord)}
    {qs : List Node} {r : QuestionRecord} (h : r ∈ walkA p qs) :
    ∃ q ∈ qs, p q = .ok (some r) := by
  induction qs with
  | nil => simp [walkA] at h
  | cons q rest ih =>
    rw [walkA] at h
    cases hp : p q with
    | error e =>
      rw [hp] at h
      obtain ⟨q', hq', hb⟩ := ih h
      exact ⟨q', List.mem_cons_of_mem _ hq', hb⟩
    | ok o =>
      cases o with
      | none =>
        rw [hp] at h
        obtain ⟨q', hq', hb⟩ := ih h
        exact ⟨q', List.mem_cons_of_mem _ hq', hb⟩
      | some r' =>
        rw [hp] at h
        rcases List.mem_cons.mp h with rfl | hmemr
        · exact ⟨q, List.mem_cons_self _ _, hp⟩
        · obtain ⟨q', hq', hb⟩ := ih hmemr
          exact ⟨q', List.mem_cons_of_mem _ hq', hb⟩

theorem walkB_skip {p : Node → Except String (Option (QuestionRecord × Bool))}
    {qb : Node} {e : String} (hq : p qb = .error e) (l1 l2 : List Node) :
    walkB p (l1 ++ qb :: l2) = walkB p (l1 ++ l2) := by
  induction l1 with
  | nil => simp only [List.nil_append, walkB, hq]
  | cons a l ih => simp only [List.cons_append, walkB, List.append_eq, ih]

theorem walkA_skip {p : Node → Except String (Option QuestionRecord)}
    {qa : Node} {e : String} (hq : p qa = .error e) (l1 l2 : List Node) :
    walkA p (l1 ++ qa :: l2) = walkA p (l1 ++ l2) := by
  induction l1 with
  | nil => simp only [List.nil_append, walkA, hq]
  | cons a l ih => simp only [List.cons_append, walkA, List.append_eq, ih]

theorem walkB_counts {p : Node → Except String (Option (QuestionRecord × Bool))}
    (hp : ∀ q r b, p q = .ok (some (r, b)) → (b = true ↔ r.answer ≠ some (.str "")))
    (qs : List Node) :
    (walkB p qs).questionsWithAnswer = countAnswered (walkB p qs).records ∧
    (walkB p qs).questionsWithoutAnswer = countBlank (walkB p qs).records := by
  induction qs with
  | nil => simp [walkB, countAnswered, countBlank]
  | cons q rest ih =>
    rw [walkB]
    cases hpq : p q with
    | error e => exact ih
    | ok o =>
      cases o with
      | none => exact ih
      | some rb =>
        dsimp only
        have hiff := hp q rb.1 rb.2 (by rw [hpq])
        by_cases hb2 : rb.2 = true
        · have hans : rb.1.answer ≠ some (.str "") := hiff.mp hb2
          rw [if_pos hb2]
          simp only [countAnswered, countBlank, List.filter_cons]
          rw [if_pos (by simpa using hans), if_neg (by simpa using hans)]
          simp only [List.length_cons]
          exact ⟨by rw [ih.1]; rfl, by rw [ih.2]; rfl⟩
        · have hans : rb.1.answer = some (.str "") := by
            by_contra hcon
            exact hb2 (hiff.mpr hcon)
          rw [if_neg hb2]
          simp only [countAnswered, countBlank, List.filter_cons]
          rw [if_neg (by simpa using hans), if_pos (by simpa using hans)]
          simp only [List.length_cons]
          exact ⟨by rw [ih.1]; rfl, by rw [ih.2]; rfl⟩

/-! ### Lemmas about the stat-card scan -/

theorem statProj_statStep (cat : StatCategory) (st : Stats) (card : Node) :
    statProj cat (statStep st card) =
      if classifyCard card = some cat then cardValue card else statProj cat st := by
  cases h1 : qsFirst (hasClass "stat-label") card with
  | none =>
    cases cat <;> simp [statStep, classifyCard, h1, statProj]
  | some label =>
    cases h2 : qsFirst (hasClass "stat-value") card with
    | none => cases cat <;> simp [statStep, classifyCard, h1, h2, statProj]
    | some value =>
      cases cat <;>
        simp only [statStep, cardValue, classifyCard, h1, h2] <;>
        split_ifs <;> simp_all [statProj]

/-- The values of the cards the chain classifies into `cat`, in scan order. -/
def matchedVals (cat : StatCategory) (cards : List Node) : List Int :=
  cards.filterMap (fun c => if classifyCard c = some cat then some (cardValue c) else none)

theorem getLast?_cons_isSome (y : Int) (l : List Int) :
    ((y :: l).getLast?).isSome = true := by
  induction l generalizing y with
  | nil => rfl
  | cons z l ih => rw [List.getLast?_cons_cons]; exact ih z

theorem getLast_getD_cons (x d : Int) (l : List Int) :
    ((x :: l).getLast?).getD d = (l.getLast?).getD x := by
  cases l with
  | nil => rfl
  | cons y l =>
    rw [List.getLast?_cons_cons]
    obtain ⟨v, hv⟩ := Option.isSome_iff_exists.mp (getLast?_cons_isSome y l)
    rw [hv]
    rfl

theorem statProj_foldl (cat : StatCategory) (cards : List Node) : ∀ st : Stats,
    statProj cat (cards.foldl statStep st) =
      ((matchedVals cat cards).getLast?).getD (statProj cat st) := by
  induction cards with
  | nil => intro st; simp [matchedVals]
  | cons c rest ih =>
    intro st
    rw [List.foldl_cons, ih]
    by_cases hc : classifyCard c = some cat
    · rw [statProj_statStep, if_pos hc]
      have hm : matchedVals cat (c :: rest) = cardValue c :: matchedVals cat rest := by
        simp [matchedVals, List.filterMap_cons, hc]
      rw [hm, getLast_getD_cons]
    · rw [statProj_statStep, if_neg hc]
      have hm : matchedVals cat (c :: rest) = matchedVals cat rest := by
        simp [matchedVals, List.filterMap_cons, hc]
      rw [hm]

/-! ### Lemmas about the course registry -/

theorem mem_addDirs_mono (ps : List String) : ∀ (dirs : List String) (x : String),
    x ∈ dirs → x ∈ addDirs dirs ps := by
  induction ps with
  | nil => intro dirs x hx; simpa [addDirs] using hx
  | cons d rest ih =>
    intro dirs x hx
    unfold addDirs
    rw [List.foldl_cons]
    refine ih _ x ?_
    dsimp only
    split <;> simp [hx]

theorem mem_addDir_last (c : String) (X : List String) :
    c ∈ (if c ∈ X then X else X ++ [c]) := by
  split
  · assumption
  · simp

theorem mem_addDirs3_last (dirs : List String) (a b c : String) :
    c ∈ addDirs dirs [a, b, c] := by
  unfold addDirs
  simp only [List.foldl_cons, List.foldl_nil]
  exact mem_addDir_last c _

theorem mem_ensureDir3_self (a b c : String) (dirs : List String) :
    c ∈ ensureDir3 a b c dirs := by
  unfold ensureDir3
  split
  · assumption
  · exact mem_addDirs3_last dirs a b c

theorem mem_ensureDir3_mono {x : String} {dirs : List String} (a b c : String)
    (hx : x ∈ dirs) : x ∈ ensureDir3 a b c dirs := by
  unfold ensureDir3
  split
  · exact hx
  · exact mem_addDirs_mono _ dirs x hx

theorem ensureDir3_noop {c : String} {dirs : List String} (a b : String)
    (hc : c ∈ dirs) : ensureDir3 a b c dirs = dirs := by
  unfold ensureDir3
  rw [if_pos hc]

theorem ensureCourseStructure_idem (cf : String) (s : FsState) :
    ensureCourseStructure cf (ensureCourseStructure cf s).1 = ensureCourseStructure cf s := by
  simp only [ensureCourseStructure]
  have hhd : ("assets/" ++ cf ++ "/html") ∈
      ensureDir3 "assets" ("assets/" ++ cf) ("assets/" ++ cf ++ "/json")
        (ensureDir3 "assets" ("assets/" ++ cf) ("assets/" ++ cf ++ "/html") s.dirs) :=
    mem_ensureDir3_mono _ _ _ (mem_ensureDir3_self _ _ _ _)
  have hjd : ("assets/" ++ cf ++ "/json") ∈
      ensureDir3 "assets" ("assets/" ++ cf) ("assets/" ++ cf ++ "/json")
        (ensureDir3 "assets" ("assets/" ++ cf) ("assets/" ++ cf ++ "/html") s.dirs) :=
    mem_ensureDir3_self _ _ _ _
  by_cases hcf : ((s.coursesFile.getD []).any (fun c => c.id = cf)) = true
  · rw [if_pos hcf, if_pos hcf]
    dsimp only
    rw [ensureDir3_noop _ _ hhd, ensureDir3_noop _ _ hjd]
  · rw [if_neg hcf]
    dsimp only
    rw [ensureDir3_noop _ _ hhd, ensureDir3_noop _ _ hjd]
    rw [if_pos (by simp [List.any_append])]

theorem ensureModule_has (ck : String) (c : Course) :
    ((ensureModule ck c).modules.any (fun m => m.checkpoints.contains ck)) = true := by
  unfold ensureModule
  by_cases h : (c.modules.any (fun m => m.checkpoints.contains ck)) = true
  · rw [if_pos h]; exact h
  · rw [if_neg h]
    simp [List.any_append]

theorem ensureModule_id (ck : String) (c : Course) : (ensureModule ck c).id = c.id := by
  unfold ensureModule
  split <;> rfl

theorem ensureModule_idem (ck : String) (c : Course) :
    ensureModule ck (ensureModule ck c) = ensureModule ck c := by
  conv_lhs => rw [ensureModule]
  rw [if_pos (ensureModule_has ck c)]

theorem updateFirstCourse_idem (cf ck : String) (l : List Course) :
    updateFirstCourse cf ck (updateFirstCourse cf ck l) = updateFirstCourse cf ck l := by
  induction l with
  | nil => rfl
  | cons c rest ih =>
    by_cases h : c.id = cf
    · rw [updateFirstCourse, if_pos h, updateFirstCourse,
        if_pos ((ensureModule_id ck c).trans h), ensureModule_idem]
    · rw [updateFirstCourse, if_neg h, updateFirstCourse, if_neg h, ih]

theorem updateCourseModule_idem (cf ck : String) (s : FsState) :
    updateCourseModule cf ck (updateCourseModule cf ck s) = updateCourseModule cf ck s := by
  cases hf : s.coursesFile with
  | none =>
    have h1 : updateCourseModule cf ck s = s := by rw [updateCourseModule, hf]
    rw [h1, h1]
  | some courses =>
    have h1 : updateCourseModule cf ck s =
        { s with coursesFile := some (updateFirstCourse cf ck courses) } := by
      rw [updateCourseModule, hf]
    rw [h1]
    have h2 : updateCourseModule cf ck { s with coursesFile := some (updateFirstCourse cf ck courses) } =
        { s with coursesFile := some (updateFirstCourse cf ck (updateFirstCourse cf ck courses)) } := rfl
    rw [h2, updateFirstCourse_idem]

theorem buildB_flag_iff {q : Node} {r : QuestionRecord} {b : Bool}
    (h : buildQuestionB q = some (r, b)) :
    b = true ↔ r.answer ≠ some (.str "") := by
  obtain ⟨qt, _, _, _, _, _, hblank, hans⟩ := buildB_some_elim h
  by_cases hc : ((isNewQuestion q || isWrongAnswer q) = true ∨ bCorrect q = [])
  · obtain ⟨ha, hb⟩ := hblank hc
    simp [ha, hb]
  · obtain ⟨hb, hcase⟩ := hans hc
    rcases hcase with ⟨_, ha⟩ | ⟨c, hcs, ha⟩
    · simp [hb, ha]
    · have hcne : c ≠ "" := bCorrect_ne_blank q c (by rw [hcs]; exact List.mem_cons_self _ _)
      simp [hb, ha, hcne]

theorem buildA_answer_ne_blank {q : Node} {r : QuestionRecord}
    (h : buildQuestionA q = some r) :
    r.answer ≠ some (.str "") ∧ ∃ a, r.answer = some a ∧ answerNonEmpty a = true := by
  obtain ⟨qt, _, _, hne, _, _, hcase⟩ := buildA_some_elim h
  rcases hcase with ⟨hlen, ha⟩ | ⟨c, hcs, ha⟩
  · refine ⟨by simp [ha], ⟨.arr (aCorrect q), ha, ?_⟩⟩
    simp [answerNonEmpty, List.isEmpty_iff, hne]
  · have hcne : c ≠ "" := aCorrect_ne_blank q c (by rw [hcs]; exact List.mem_cons_self _ _)
    exact ⟨by simp [ha, hcne], ⟨.str c, ha, by simp [answerNonEmpty, hcne]⟩⟩

/-! ### Concrete sample documents, used to witness the theorems below -/

/-- A stat card with one label and one value. -/
def statCard (lbl v : String) : Node :=
  .elem "div" ["stat-card"] [] [
    .elem "span" ["stat-label"] [] [.text lbl],
    .elem "span" ["stat-value"] [] [.text v]]

/-- The question-text container of `mkQ1`. -/
def mkQ1Text : Node := .elem "div" ["question_text"] [] [.text "Capital?"]

/-- A plain multiple-choice question: Paris (marked correct) and London. -/
def mkQ1 : Node :=
  .elem "div" ["display_question"] [] [
    mkQ1Text,
    .elem "div" [] [] [
      .elem "label" ["answer_label"] [] [.text "Paris"],
      .elem "span" ["correct-answer-badge"] [] [.text " Correct!"]],
    .elem "div" [] [] [
      .elem "label" ["answer_label"] [] [.text "London"]]]

/-- A question whose answer-source badge marks it as new, with a correct badge
on one choice nevertheless. -/
def mkQ2 : Node :=
  .elem "div" ["display_question"] [] [
    .elem "div" ["question_text"] [] [
      .text "New one?",
      .elem "span" ["answer-source-badge", "new-source"] [] [.text "NEW"]],
    .elem "div" [] [] [
      .elem "label" ["answer_label"] [] [.text "Yes"],
      .elem "span" ["correct-answer-badge"] [] [.text " Correct!"]],
    .elem "div" [] [] [
      .elem "label" ["answer_label"] [] [.text "No"]]]

/-- A matching-style question: no answer labels, pull-left labels plus a select
with a placeholder and a duplicated option. -/
def mkQ3 : Node :=
  .elem "div" ["display_question"] [] [
    .elem "div" ["question_text"] [] [.text "Match them"],
    .elem "div" ["pull-left"] [] [
      .elem "label" [] [] [.text "alpha"],
      .elem "label" [] [] [.text "beta"]],
    .elem "select" [] [] [
      .elem "option" [] [] [.text "[ Choose ]"],
      .elem "option" [] [] [.text "alpha"],
      .elem "option" [] [] [.text "gamma"],
      .elem "option" [] [] [.text "gamma"]]]

/-- A second plain question: Blue (marked correct) and Green. -/
def mkQ4 : Node :=
  .elem "div" ["display_question"] [] [
    .elem "div" ["question_text"] [] [.text "Sky?"],
    .elem "div" [] [] [
      .elem "label" ["answer_label"] [] [.text "Blue"],
      .elem "span" ["correct-answer-badge"] [] [.text " Correct!"]],
    .elem "div" [] [] [
      .elem "label" ["answer_label"] [] [.text "Green"]]]

/-- A document exercising all three question shapes. -/
def sampleDoc : Node :=
  .elem "body" [] [] [statCard "Total Questions" "10", statCard "Correct" "5", mkQ1, mkQ2, mkQ3]

/-- The record both variants extract from `mkQ1`. -/
def sampleRec1 : QuestionRecord :=
  ⟨"Capital?", none, ["Paris", "London"], some (.str "Paris")⟩

/-- The record variant B extracts from `mkQ2` (blank answer). -/
def sampleRec2B : QuestionRecord :=
  ⟨"New one?", none, ["Yes", "No"], some (.str "")⟩

/-- The record variant B extracts from `mkQ3` through the fallback. -/
def sampleRec3 : QuestionRecord :=
  ⟨"Match them", none, ["alpha", "beta", "gamma"], some (.str "")⟩

/-- A document on which variant A emits two answered records while the parsed
stat counters are 5/3/1/1; none of the five quantities variant A reports equals
the number of blank-answer records (which is 0). -/
def c5doc : Node :=
  .elem "body" [] [] [statCard "Total" "5", statCard "Correct" "3",
    statCard "Wrong" "1", statCard "New" "1", mkQ1, mkQ4]

/-- A document with two cards classifying as `total` (last must win) and a
card whose value does not parse. -/
def c6doc : Node :=
  .elem "body" [] [] [statCard "total" "5", statCard "Total score" "7", statCard "correct" "abc"]

/-- A node the demonstration processors below fail on. -/
def badNode : Node := .elem "div" ["explode"] [] []

/-- Variant B's per-question body wrapped so that one marked node raises. -/
def pBdemo (q : Node) : Except String (Option (QuestionRecord × Bool)) :=
  if hasClass "explode" q then .error "boom" else .ok (buildQuestionB q)

/-- Variant A's per-question body wrapped so that one marked node raises. -/
def pAdemo (q : Node) : Except String (Option QuestionRecord) :=
  if hasClass "explode" q then .error "boom" else .ok (buildQuestionA q)

/-! ### The claims -/

/-- Claim C1: in variant B, a question marked new or wrong by its answer-source
badge is emitted with `answer = ""` even if a choice carries a correct-answer
badge; and an unmarked question none of whose (non-empty) choices carries a
correct-answer badge is likewise emitted with `answer = ""`. -/
theorem claim_C1_newWrong_blank_answer (q : Node) (r : QuestionRecord) (b : Bool)
    (h : buildQuestionB q = some (r, b)) :
    ((isNewQuestion q || isWrongAnswer q) = true → r.answer = some (.str "")) ∧
    ((isNewQuestion q = false ∧ isWrongAnswer q = false ∧
        (∀ lp ∈ answerLabelsWP q, choiceTextOf lp.1 ≠ "" → hasCorrectBadge lp.2 = false)) →
      r.answer = some (.str "")) := by
  obtain ⟨qt, hqt, hch, hne, _, _, hblank, hans⟩ := buildB_some_elim h
  refine ⟨fun hb => (hblank (Or.inl hb)).1, ?_⟩
  rintro ⟨hn, hw, hnone⟩
  refine (hblank (Or.inr ?_)).1
  unfold bCorrect
  rw [hn, hw]
  simp only [Bool.or_self]
  split
  · rfl
  · by_contra hccon
    obtain ⟨lp, hlp, hne', hbadge⟩ := (gatherChoices_snd_ne_nil_iff _).mp hccon
    rw [hnone lp hlp hne'] at hbadge
    simp at hbadge

/-- Witness for C1: the new-marked question `mkQ2` carries a correct-answer
badge on its first choice yet is emitted with a blank answer. -/
theorem claim_C1_witness :
    buildQuestionB mkQ2 = some (sampleRec2B, false) ∧
    (isNewQuestion mkQ2 || isWrongAnswer mkQ2) = true ∧
    sampleRec2B.answer = some (.str "") :=
  ⟨by decide, by decide,
   (claim_C1_newWrong_blank_answer mkQ2 sampleRec2B false (by decide)).1 (by decide)⟩

/-- Claim C2: in variant A, a question with a question-text container is
emitted exactly when some non-empty choice's container carries a correct-answer
badge, and the `answer` of an emitted record is the single correct choice as a
string, or the list of correct choices (a sublist of `choices`, hence in
document order) when there are several. -/
theorem claim_C2_strict_emission (q : Node) (qt : Node)
    (hqt : questionTextEl q = some qt) :
    ((buildQuestionA q).isSome ↔
      ∃ lp ∈ answerLabelsWP q, choiceTextOf lp.1 ≠ "" ∧ hasCorrectBadge lp.2 = true) ∧
    (∀ r, buildQuestionA q = some r →
      (aCorrect q).Sublist r.choices ∧
      ((∃ c, aCorrect q = [c] ∧ r.answer = some (.str c)) ∨
        ((aCorrect q).length > 1 ∧ r.answer = some (.arr (aCorrect q))))) := by
  constructor
  · rw [buildA_isSome_iff hqt]
    exact gatherChoices_snd_ne_nil_iff _
  · intro r hr
    obtain ⟨qt', hqt', hch, hne, _, _, hans⟩ := buildA_some_elim hr
    refine ⟨hch ▸ aCorrect_sublist q, ?_⟩
    rcases hans with ⟨h1, h2⟩ | ⟨c, h1, h2⟩
    · exact Or.inr ⟨h1, h2⟩
    · exact Or.inl ⟨c, h1, h2⟩

/-- Witness for C2: `mkQ1` is emitted by variant A because Paris's container
carries a correct-answer badge, and the answer is the single string Paris. -/
theorem claim_C2_witness :
    questionTextEl mkQ1 = some mkQ1Text ∧
    ((buildQuestionA mkQ1).isSome ↔
      ∃ lp ∈ answerLabelsWP mkQ1, choiceTextOf lp.1 ≠ "" ∧ hasCorrectBadge lp.2 = true) ∧
    buildQuestionA mkQ1 = some sampleRec1 ∧
    ((∃ c, aCorrect mkQ1 = [c] ∧ sampleRec1.answer = some (.str c)) ∨
      ((aCorrect mkQ1).length > 1 ∧ sampleRec1.answer = some (.arr (aCorrect mkQ1)))) :=
  ⟨rfl, (claim_C2_strict_emission mkQ1 mkQ1Text rfl).1, by decide,
   ((claim_C2_strict_emission mkQ1 mkQ1Text rfl).2 sampleRec1 (by decide)).2⟩

/-- Claim C3: in both variants every emitted record has non-empty `choices`. -/
theorem claim_C3_nonempty_choices (doc : Node) (r : QuestionRecord) :
    (r ∈ (variantB_extract doc).records → r.choices ≠ []) ∧
    (r ∈ variantA_extract doc → r.choices ≠ []) := by
  constructor
  · intro hr
    obtain ⟨q, hq, b, hb⟩ := walkB_records_mem hr
    simp only [Except.ok.injEq] at hb
    obtain ⟨qt, _, hch, hne, _⟩ := buildB_some_elim hb
    rw [hch]; exact hne
  · intro hr
    obtain ⟨q, hq, hb⟩ := walkA_records_mem hr
    simp only [Except.ok.injEq] at hb
    obtain ⟨qt, _, hch, hne, _⟩ := buildA_some_elim hb
    rw [hch]
    intro hnil
    exact hne (List.sublist_nil.mp (hnil ▸ aCorrect_sublist q))

/-- Witness for C3 on `sampleDoc`: the Paris/London record appears in both
variants' output with non-empty choices. -/
theorem claim_C3_witness :
    (sampleRec1 ∈ (variantB_extract sampleDoc).records ∧ sampleRec1.choices ≠ []) ∧
    (sampleRec1 ∈ variantA_extract sampleDoc ∧ sampleRec1.choices ≠ []) :=
  ⟨⟨by decide, (claim_C3_nonempty_choices sampleDoc sampleRec1).1 (by decide)⟩,
   ⟨by decide, (claim_C3_nonempty_choices sampleDoc sampleRec1).2 (by decide)⟩⟩

/-- Claim C4: in both variants, every element of a present non-blank `answer`
is textually one of the record's `choices`. -/
theorem claim_C4_answer_subset (doc : Node) (r : QuestionRecord) (a : AnswerVal)
    (hmem : r ∈ (variantB_extract doc).records ∨ r ∈ variantA_extract doc)
    (ha : r.answer = some a) (hne : a ≠ .str "") :
    ∀ t ∈ answerTexts a, t ∈ r.choices := by
  rcases hmem with hB | hA
  · obtain ⟨q, hq, b, hb⟩ := walkB_records_mem hB
    simp only [Except.ok.injEq] at hb
    obtain ⟨qt, hqt, hch, _, _, _, hblank, hans⟩ := buildB_some_elim hb
    by_cases hcond : ((isNewQuestion q || isWrongAnswer q) = true ∨ bCorrect q = [])
    · have h1 := (hblank hcond).1
      rw [ha] at h1
      exact absurd (Option.some.inj h1) hne
    · obtain ⟨_, hcase⟩ := hans hcond
      rcases hcase with ⟨_, hv⟩ | ⟨c, hcs, hv⟩
      · rw [ha] at hv
        have haa := Option.some.inj hv
        subst haa
        intro t ht
        rw [hch]
        exact (bCorrect_sublist q).subset (by simpa [answerTexts] using ht)
      · rw [ha] at hv
        have haa := Option.some.inj hv
        subst haa
        intro t ht
        simp only [answerTexts, List.mem_singleton] at ht
        subst ht
        rw [hch]
        exact (bCorrect_sublist q).subset (by rw [hcs]; exact List.mem_cons_self _ _)
  · obtain ⟨q, hq, hb⟩ := walkA_records_mem hA
    simp only [Except.ok.injEq] at hb
    obtain ⟨qt, hqt, hch, hne', _, _, hcase⟩ := buildA_some_elim hb
    rcases hcase with ⟨_, hv⟩ | ⟨c, hcs, hv⟩
    · rw [ha] at hv
      have haa := Option.some.inj hv
      subst haa
      intro t ht
      rw [hch]
      exact (aCorrect_sublist q).subset (by simpa [answerTexts] using ht)
    · rw [ha] at hv
      have haa := Option.some.inj hv
      subst haa
      intro t ht
      simp only [answerTexts, List.mem_singleton] at ht
      subst ht
      rw [hch]
      exact (aCorrect_sublist q).subset (by rw [hcs]; exact List.mem_cons_self _ _)

/-- Witness for C4: the extracted answer Paris is one of the record's choices. -/
theorem claim_C4_witness :
    sampleRec1 ∈ (variantB_extract sampleDoc).records ∧
    sampleRec1.answer = some (.str "Paris") ∧
    "Paris" ∈ sampleRec1.choices :=
  ⟨by decide, by decide,
   claim_C4_answer_subset sampleDoc sampleRec1 (.str "Paris") (Or.inl (by decide))
     (by decide) (by decide) "Paris" (by decide)⟩

/-- Counterexample for C5 as stated: variant A maintains no answered/blank
counters.  On `c5doc` its whole numeric report is the four parsed stat counters
and the extracted-question count; the number of blank-answer records is 0, and
no reported quantity equals it — variant A has not counted blank-answer
questions, while variant B has (see the amended theorem). -/
theorem claim_C5_counterexample :
    variantA_reportNums c5doc = [5, 3, 1, 1, 2] ∧
    countAnswered (variantA_extract c5doc) = 2 ∧
    countBlank (variantA_extract c5doc) = 0 ∧
    (0 : Int) ∉ variantA_reportNums c5doc :=
  ⟨by decide, by decide, by decide, by decide⟩

/-- Claim C5 (amended): variant B maintains the two counters — after the walk,
`questionsWithAnswer` is the number of emitted records with non-blank answer
and `questionsWithoutAnswer` the number with blank answer; variant A maintains
no such counters, every record it emits carrying a non-blank answer (so its
emitted-record count is its answered count and its blank count is zero). -/
theorem claim_C5_amended_counters (doc : Node) (r : QuestionRecord) :
    (variantB_extract doc).questionsWithAnswer = countAnswered (variantB_extract doc).records ∧
    (variantB_extract doc).questionsWithoutAnswer = countBlank (variantB_extract doc).records ∧
    (r ∈ variantA_extract doc → r.answer ≠ some (.str "")) := by
  have hp : ∀ (q : Node) (r' : QuestionRecord) (b : Bool),
      (fun q => (Except.ok (buildQuestionB q) : Except String (Option (QuestionRecord × Bool)))) q =
        .ok (some (r', b)) → (b = true ↔ r'.answer ≠ some (.str "")) := by
    intro q r' b hb
    simp only [Except.ok.injEq] at hb
    exact buildB_flag_iff hb
  have hc := walkB_counts hp (displayQuestions doc)
  refine ⟨hc.1, hc.2, ?_⟩
  intro hr
  obtain ⟨q, hq, hb⟩ := walkA_records_mem hr
  simp only [Except.ok.injEq] at hb
  exact (buildA_answer_ne_blank hb).1

/-- Witness for the amended C5 on `sampleDoc` and `c5doc`. -/
theorem claim_C5_witness :
    (variantB_extract sampleDoc).questionsWithAnswer = 1 ∧
    (variantB_extract sampleDoc).questionsWithoutAnswer = 2 ∧
    countAnswered (variantB_extract sampleDoc).records = 1 ∧
    countBlank (variantB_extract sampleDoc).records = 2 ∧
    sampleRec1 ∈ variantA_extract c5doc ∧ sampleRec1.answer ≠ some (.str "") :=
  ⟨by decide, by decide, by decide, by decide, by decide,
   (claim_C5_amended_counters c5doc sampleRec1).2.2 (by decide)⟩

/-- Claim C6: a stat card with both a label and a value sub-element is
classified by case-insensitive substring match of its label against
total/correct/wrong/new, its value parsed with a 0 default on failure, and
when several cards classify into the same category the last scanned value is
the final counter (no accumulation). -/
theorem claim_C6_statcard_lastwins :
    (∀ (doc : Node) (cat : StatCategory),
      statProj cat (computeStats doc) =
        ((matchedVals cat (statCards doc)).getLast?).getD 0) ∧
    (∀ s : String, jsParseInt s = none → jsParseIntOr0 s = 0) := by
  constructor
  · intro doc cat
    rw [computeStats, statProj_foldl]
    cases cat <;> rfl
  · intro s hs
    rw [jsParseIntOr0, hs]
    rfl

/-- Witness for C6: on `c6doc` two cards classify as total and the later one
(7) wins; the unparsable value "abc" degrades to 0. -/
theorem claim_C6_witness :
    statProj StatCategory.total (computeStats c6doc) = 7 ∧
    ((matchedVals StatCategory.total (statCards c6doc)).getLast?).getD 0 = 7 ∧
    jsParseInt "abc" = none ∧ jsParseIntOr0 "abc" = 0 ∧
    statProj StatCategory.correct (computeStats c6doc) = 0 := by
  refine ⟨?_, by decide, by decide, claim_C6_statcard_lastwins.2 "abc" (by decide), by decide⟩
  rw [claim_C6_statcard_lastwins.1 c6doc StatCategory.total]
  decide

/-- Claim C7: variant B's matching-question fallback is taken exactly when a
question has no answer-label elements; its `choices` are the non-empty
pull-left label texts in document order followed by the select option texts in
document order, excluding empties, the literal placeholder, and texts already
present (order-preserving de-duplication). -/
theorem claim_C7_fallback_dedup (q : Node) (r : QuestionRecord) (b : Bool)
    (h : buildQuestionB q = some (r, b)) :
    (answerLabelsWP q = [] → r.choices = fallbackChoices q) ∧
    (answerLabelsWP q ≠ [] →
      r.choices = (gatherChoices (isNewQuestion q || isWrongAnswer q) (answerLabelsWP q)).1) ∧
    fallbackLabels q = (rawLabelTexts q).filter (fun t => t ≠ "") ∧
    (∃ os, fallbackChoices q = fallbackLabels q ++ os ∧ os.Sublist (optionTexts q) ∧
      os.Nodup ∧ ∀ t, t ∈ os ↔
        (t ∈ optionTexts q ∧ t ≠ "" ∧ t ≠ "[ Choose ]" ∧ t ∉ fallbackLabels q)) := by
  obtain ⟨qt, hqt, hch, _⟩ := buildB_some_elim h
  refine ⟨?_, ?_, rfl, fallbackChoices_spec q⟩
  · intro hlab
    rw [hch]
    unfold bChoices
    rw [if_pos (by simp [hlab])]
  · intro hlab
    rw [hch]
    unfold bChoices
    rw [if_neg (by simp [List.isEmpty_iff, hlab])]

/-- Witness for C7 on the matching question `mkQ3`: labels first, placeholder
excluded, the duplicate of alpha and the second gamma de-duplicated. -/
theorem claim_C7_witness :
    buildQuestionB mkQ3 = some (sampleRec3, false) ∧
    answerLabelsWP mkQ3 = [] ∧
    sampleRec3.choices = fallbackChoices mkQ3 ∧
    fallbackLabels mkQ3 = ["alpha", "beta"] ∧
    optionTexts mkQ3 = ["[ Choose ]", "alpha", "gamma", "gamma"] ∧
    fallbackChoices mkQ3 = ["alpha", "beta", "gamma"] :=
  ⟨by decide, rfl, (claim_C7_fallback_dedup mkQ3 sampleRec3 false (by decide)).1 rfl,
   by decide, by decide, by decide⟩

/-- Claim C8: in both walks, a question whose processing raises contributes no
record and no counter bump — the walk's result over the remaining questions is
exactly the result without the faulting question. -/
theorem claim_C8_fault_isolation
    (pB : Node → Except String (Option (QuestionRecord × Bool)))
    (pA : Node → Except String (Option QuestionRecord))
    (qb qa : Node) (eb ea : String) (l1 l2 l3 l4 : List Node)
    (hb : pB qb = .error eb) (ha : pA qa = .error ea) :
    walkB pB (l1 ++ qb :: l2) = walkB pB (l1 ++ l2) ∧
    walkA pA (l3 ++ qa :: l4) = walkA pA (l3 ++ l4) :=
  ⟨walkB_skip hb l1 l2, walkA_skip ha l3 l4⟩

/-- Witness for C8: a processor raising on `badNode` leaves the surrounding
questions' records intact in both variants. -/
theorem claim_C8_witness :
    pBdemo badNode = .error "boom" ∧ pAdemo badNode = .error "boom" ∧
    walkB pBdemo ([mkQ1] ++ badNode :: [mkQ2]) = walkB pBdemo ([mkQ1] ++ [mkQ2]) ∧
    walkA pAdemo ([mkQ1] ++ badNode :: [mkQ2]) = walkA pAdemo ([mkQ1] ++ [mkQ2]) ∧
    (walkB pBdemo ([mkQ1] ++ badNode :: [mkQ2])).records = [sampleRec1, sampleRec2B] :=
  ⟨rfl, rfl,
   (claim_C8_fault_isolation pBdemo pAdemo badNode badNode "boom" "boom"
     [mkQ1] [mkQ2] [mkQ1] [mkQ2] rfl rfl).1,
   (claim_C8_fault_isolation pBdemo pAdemo badNode badNode "boom" "boom"
     [mkQ1] [mkQ2] [mkQ1] [mkQ2] rfl rfl).2,
   by decide⟩

/-- Claim C9: the registry ensure-operations are idempotent — a second
`ensureCourseStructure` with the same course id, or a second
`updateCourseModule` with the same course id and checkpoint name, returns the
state of the first call unchanged (so nothing is appended twice). -/
theorem claim_C9_registry_idempotent (cf ck : String) (s : FsState) :
    ensureCourseStructure cf (ensureCourseStructure cf s).1 = ensureCourseStructure cf s ∧
    updateCourseModule cf ck (updateCourseModule cf ck s) = updateCourseModule cf ck s :=
  ⟨ensureCourseStructure_idem cf s, updateCourseModule_idem cf ck s⟩

/-- Claim C10: every emitted record carries an `answer` field — variant B
writes the empty string for new/wrong/unanswered questions instead of omitting
the field, and variant A always writes a non-empty string or a non-empty
array. -/
theorem claim_C10_answer_always_present (doc q : Node) (r r' : QuestionRecord) (b : Bool) :
    (r ∈ (variantB_extract doc).records → r.answer.isSome = true) ∧
    (buildQuestionB q = some (r', b) →
      ((isNewQuestion q || isWrongAnswer q) = true ∨ bCorrect q = [] →
        r'.answer = some (.str ""))) ∧
    (r ∈ variantA_extract doc → ∃ a, r.answer = some a ∧ answerNonEmpty a = true) := by
  refine ⟨?_, ?_, ?_⟩
  · intro hr
    obtain ⟨qq, hq, bb, hb⟩ := walkB_records_mem hr
    simp only [Except.ok.injEq] at hb
    obtain ⟨qt, _, _, _, _, _, hblank, hans⟩ := buildB_some_elim hb
    by_cases hc : ((isNewQuestion qq || isWrongAnswer qq) = true ∨ bCorrect qq = [])
    · rw [(hblank hc).1]; rfl
    · obtain ⟨_, hcase⟩ := hans hc
      rcases hcase with ⟨_, hv⟩ | ⟨c, _, hv⟩ <;> rw [hv] <;> rfl
  · intro hb hc
    obtain ⟨qt, _, _, _, _, _, hblank, _⟩ := buildB_some_elim hb
    exact (hblank hc).1
  · intro hr
    obtain ⟨qq, hq, hb⟩ := walkA_records_mem hr
    simp only [Except.ok.injEq] at hb
    exact (buildA_answer_ne_blank hb).2

/-- Witness for C10: the new-marked question's record carries `answer` as the
empty string (present, not omitted), and variant A's Paris record carries a
non-empty answer. -/
theorem claim_C10_witness :
    sampleRec2B ∈ (variantB_extract sampleDoc).records ∧
    sampleRec2B.answer.isSome = true ∧
    buildQuestionB mkQ2 = some (sampleRec2B, false) ∧
    sampleRec2B.answer = some (.str "") ∧
    sampleRec1 ∈ variantA_extract sampleDoc ∧
    (∃ a, sampleRec1.answer = some a ∧ answerNonEmpty a = true) :=
  ⟨by decide,
   (claim_C10_answer_always_present sampleDoc mkQ2 sampleRec2B sampleRec2B false).1 (by decide),
   by decide,
   (claim_C10_answer_always_present sampleDoc mkQ2 sampleRec2B sampleRec2B false).2.1
     (by decide) (by decide),
   by decide,
   (claim_C10_answer_always_present sampleDoc mkQ2 sampleRec1 sampleRec2B false).2.2 (by decide)⟩
